import Mathlib

/-!
Verification of `slmsuite/holography/analysis.py`.

This file shallowly embeds the numerical routines of the repository's
`analysis.py` — the region sampler `take`, the moment engine
(`image_moment` and its derived operations), the ellipticity metric,
the template-matching scoring mask, and the parity-resolution and
candidate-selection logic of `blob_array_detect` — and proves or refutes
the specification's claims about them.

Conventions of the embedding:
* real-valued image intensities are modelled as rationals (`ℚ`); the two
  ellipticity functions, whose source uses `np.sqrt`, are modelled over `ℝ`;
* numpy arrays are modelled as shape data plus total index functions;
* `np.nan` markers produced by `take(..., clip=True)` are modelled with
  `Option ℚ` (`none` = not-a-number); summation is strict in `none`,
  matching IEEE `x + nan = nan`;
* numpy integer indexing semantics are modelled exactly: an index `i` with
  `0 ≤ i < dim` addresses normally, `-dim ≤ i < 0` wraps to `dim + i`, and
  anything else raises `IndexError`;
* fallible paths return `Except String _`.
-/

set_option maxHeartbeats 4000000

/-- numpy index resolution on one axis: `0 ≤ i < dim` addresses directly,
`-dim ≤ i < 0` wraps around to the far edge, anything else raises
`IndexError` (modelled as `none`). -/
def npWrapIndex (dim : Nat) (i : Int) : Option Nat :=
  if 0 ≤ i ∧ i < (dim : Int) then some i.toNat
  else if -(dim : Int) ≤ i ∧ i < 0 then some (i + dim).toNat
  else none

/-- `np.clip(i, 0, dim - 1)` on one axis (source line 84/85). -/
def npClipIndex (dim : Nat) (i : Int) : Nat :=
  (max 0 (min i ((dim : Int) - 1))).toNat

/-- The centering offset of `take`'s integration window:
`int(size/2) if centered else 0` (source lines 61-62). -/
def takeOff (s : Nat) (centered : Bool) : Int :=
  if centered then ((s / 2 : Nat) : Int) else 0

/-- `integration_x[k, i]` of `take` (source lines 64-68): the raveled
region index `i` of a `(sh, sw)` meshgrid has column `i % sw`, so the x
index is `edge_x[i % sw] + vectors[0][k]`. -/
def regionIx (sw : Nat) (centered : Bool) (vx : Int) (i : Nat) : Int :=
  ((i % sw : Nat) : Int) - takeOff sw centered + vx

/-- `integration_y[k, i]` of `take` (source lines 64-71): the raveled
region index `i` of a `(sh, sw)` meshgrid has row `i / sw`, so the y
index is `edge_y[i / sw] + vectors[1][k]`. -/
def regionIy (sw sh : Nat) (centered : Bool) (vy : Int) (i : Nat) : Int :=
  ((i / sw : Nat) : Int) - takeOff sh centered + vy

/-- The out-of-range mask of `take(..., clip=True)` (source lines 76-81),
for one vector `v` and one raveled region index `i`; `W`, `H` are
`shape[-1]` and `shape[-2]` of the images. -/
def takeMask (W H sw sh : Nat) (centered : Bool) (v : Int × Int) (i : Nat) : Bool :=
  decide (regionIx sw centered v.1 i < 0) ||
  decide ((W : Int) ≤ regionIx sw centered v.1 i) ||
  decide (regionIy sw sh centered v.2 i < 0) ||
  decide ((H : Int) ≤ regionIy sw sh centered v.2 i)

/-- A stack of `n` 2D images of height `h` and width `w`; `pix n y x` is the
intensity of pixel `(y, x)` of image `n`.  A rank-2 input to `take` enters as
the `n = 1` stack (source line 91 inserts `np.newaxis`). -/
structure Stack where
  n : Nat
  h : Nat
  w : Nat
  pix : Nat → Nat → Nat → ℚ

/-- A `take` output: either the cropped sub-images (reshaped to `(K, h, w)`,
source line 111) or the per-region sums of shape `(N, K)`
(`np.sum(result, axis=-1)` of the `(N, K, w*h)` sampled array, source
line 109).  Entries are `Option ℚ` so `np.nan` markers can be represented. -/
inductive TakeResult where
  | cropped (K h w : Nat) (data : Nat → Nat → Nat → Option ℚ)
  | integrated (N K : Nat) (data : Nat → Nat → Option ℚ)

/-- `np.sum` over the raveled region axis, strict in `nan`:
`optSum f m` is the sum of `f 0, …, f (m-1)`, `none` if any is `none`. -/
def optSum (f : Nat → Option ℚ) : Nat → Option ℚ
  | 0 => some 0
  | m + 1 =>
    match optSum f m, f m with
    | some a, some b => some (a + b)
    | _, _ => none

/-- Shared tail of `take` (source lines 108-111): sum over the region axis
when `integrate`, else `np.reshape` of the `(S.n, K, sw*sh)` sampled array
to `(K, sh, sw)` — which raises when the element counts differ.  `res n k i`
is the sampled value for image `n`, vector `k`, raveled region index `i`. -/
def takeFinish (S : Stack) (K sw sh : Nat) (integrate : Bool)
    (res : Nat → Nat → Nat → Option ℚ) : Except String TakeResult :=
  if integrate then
    .ok (.integrated S.n K (fun n k => optSum (res n k) (sw * sh)))
  else if S.n * K * (sw * sh) = K * (sh * sw) then
    .ok (.cropped K sh sw (fun k r c =>
      let j := k * (sh * sw) + r * sw + c
      res (j / (K * (sw * sh))) ((j % (K * (sw * sh))) / (sw * sh))
        ((j % (K * (sw * sh))) % (sw * sh))))
  else
    .error "cannot reshape"

/-- `True` iff the unclipped fancy indexing of `take` (source lines 90-93)
raises `IndexError`: some integration index lies outside `[-dim, dim)`. -/
def takeOOB (S : Stack) (vs : List (Int × Int)) (sw sh : Nat)
    (centered : Bool) : Bool :=
  (List.range vs.length).any fun k =>
    (List.range (sw * sh)).any fun i =>
      (npWrapIndex S.w (regionIx sw centered (vs.getD k (0, 0)).1 i)).isNone ||
      (npWrapIndex S.h (regionIy sw sh centered (vs.getD k (0, 0)).2 i)).isNone

/-- The region sampler `take` (source lines 14-111).  `vs` are the `K`
2-vectors (integer-valued points; `astype(np.int)` is the identity on them),
`(sw, sh)` the region size `(w, h)`.  `nanable` records whether the element
type of the sampled array can represent `np.nan` (source lines 97-101:
float dtype writes `nan`, an incompatible dtype writes `0`). -/
def take (S : Stack) (vs : List (Int × Int)) (sw sh : Nat)
    (centered integrate clip nanable : Bool) : Except String TakeResult :=
  let K := vs.length
  if clip then
    takeFinish S K sw sh integrate (fun n k i =>
      if takeMask S.w S.h sw sh centered (vs.getD k (0, 0)) i then
        (if nanable then none else some 0)
      else
        some (S.pix n (npClipIndex S.h (regionIy sw sh centered (vs.getD k (0, 0)).2 i))
          (npClipIndex S.w (regionIx sw centered (vs.getD k (0, 0)).1 i))))
  else
    if takeOOB S vs sw sh centered then
      .error "IndexError"
    else
      takeFinish S K sw sh integrate (fun n k i =>
        some (S.pix n ((npWrapIndex S.h (regionIy sw sh centered (vs.getD k (0, 0)).2 i)).getD 0)
          ((npWrapIndex S.w (regionIx sw centered (vs.getD k (0, 0)).1 i)).getD 0)))

/-- A concrete 5×5 single-image stack whose pixel `(y, x)` has value
`10*y + x`, used to exhibit `take`'s negative-index wrap-around. -/
def wrapStack : Stack :=
  ⟨1, 5, 5, fun _ y x => ((10 * y + x : ℕ) : ℚ)⟩

/-- A concrete stack of two 4×4 images (image `n` is constant `n`), used to
exhibit `take`'s reshape failure on multi-image stacks. -/
def twoStack : Stack :=
  ⟨2, 4, 4, fun n _ _ => (n : ℚ)⟩

/-! ## Moment engine (`image_moment` and derived operations, source lines 142-331) -/

/-- A single 2D image of height `h` and width `w`. -/
structure Image where
  h : Nat
  w : Nat
  pix : Nat → Nat → ℚ

/-- `np.sum(images, axis=(1, 2))` for one image: its total intensity. -/
def imageTotal (img : Image) : ℚ :=
  ∑ y in Finset.range img.h, ∑ x in Finset.range img.w, img.pix y x

/-- `np.reciprocal(q, where=(q != 0), out=np.zeros(...))` for one entry
(source lines 232-234 and 293-295): entries where the guard fails keep the
preinitialized `0`. -/
def recipGuard (q : ℚ) : ℚ :=
  if q ≠ 0 then q⁻¹ else 0

/-- The x trial function of `image_moment` (source lines 216-219):
`(x - (w-1)/2) ** mx - c_x`.  Note the source subtracts `c_x` after the
power is taken. -/
def momentEdgeX (w mx : Nat) (cx : ℚ) (x : Nat) : ℚ :=
  ((x : ℚ) - ((w : ℚ) - 1) / 2) ^ mx - cx

/-- The y trial function of `image_moment` (source lines 220-223). -/
def momentEdgeY (h my : Nat) (cy : ℚ) (y : Nat) : ℚ :=
  ((y : ℚ) - ((h : ℚ) - 1) / 2) ^ my - cy

/-- `image_moment` for one image of the stack, scalar centers case
(source lines 142-248).  The branch order mirrors the source exactly:
`moment[1] == 0` is tested first, so the moment `(0, 0)` is handled by the
first branch and the final `np.ones` branch (source lines 244-248) is
unreachable. -/
def image_moment (img : Image) (mx my : Nat) (cx cy : ℚ)
    (normalize : Bool) : ℚ :=
  let reciprical := if normalize then recipGuard (imageTotal img) else 1
  if my = 0 then
    (∑ y in Finset.range img.h, ∑ x in Finset.range img.w,
      img.pix y x * momentEdgeX img.w mx cx x) * reciprical
  else if mx = 0 then
    (∑ y in Finset.range img.h, ∑ x in Finset.range img.w,
      img.pix y x * momentEdgeY img.h my cy y) * reciprical
  else if my ≠ 0 then
    (∑ y in Finset.range img.h, ∑ x in Finset.range img.w,
      img.pix y x * momentEdgeX img.w mx cx x * momentEdgeY img.h my cy y) * reciprical
  else
    (if normalize then 1 else imageTotal img)

/-- `image_moment` mapped over a stack of images (each image of the stack is
normalized and summed independently in the source's vectorized code). -/
def image_moment_stack (imgs : List Image) (mx my : Nat) (cx cy : ℚ)
    (normalize : Bool) : List ℚ :=
  imgs.map fun img => image_moment img mx my cx cy normalize

/-- `image_normalization` (source lines 251-271):
`image_moment(images, (0, 0), normalize=False)`. -/
def image_normalization (img : Image) : ℚ :=
  image_moment img 0 0 0 0 false

/-- `image_normalize` (source lines 274-296): each image multiplied by the
guarded reciprocal of its zeroth moment. -/
def image_normalize (img : Image) : Image :=
  ⟨img.h, img.w, fun y x => img.pix y x * recipGuard (image_normalization img)⟩

/-! ## Ellipticity (source lines 384-439)

The source's eigenvalue computation uses `np.sqrt`, so these two functions
are modelled over `ℝ`.  `image_ellipticity` is the function as written in
the source — including its `determinant = m20 * m20 - m11 * m11` — while
`image_ellipticity_spec` follows the specification's words (determinant of
the moment matrix `[[M20, M11], [M11, M02]]`, i.e. `M20·M02 − M11²`) for
comparison. -/

/-- `image_ellipticity` exactly as in the source (lines 425-439), acting on
one variance triplet `(M20, M02, M11)`. -/
noncomputable def image_ellipticity (m20 m02 m11 : ℝ) : ℝ :=
  let half_trace := (m20 + m02) / 2
  let determinant := m20 * m20 - m11 * m11
  let eig_half_difference := Real.sqrt (half_trace ^ 2 - determinant)
  let eig_plus := half_trace + eig_half_difference
  let eig_minus := half_trace - eig_half_difference
  1 - eig_minus / eig_plus

/-- The ellipticity formula as the specification states it: the closed-form
eigenvalues `half-trace ± sqrt(half-trace² − determinant)` with the
determinant `M20·M02 − M11²` of `[[M20, M11], [M11, M02]]`. -/
noncomputable def image_ellipticity_spec (m20 m02 m11 : ℝ) : ℝ :=
  let half_trace := (m20 + m02) / 2
  let determinant := m20 * m02 - m11 * m11
  let eig_half_difference := Real.sqrt (half_trace ^ 2 - determinant)
  let eig_plus := half_trace + eig_half_difference
  let eig_minus := half_trace - eig_half_difference
  1 - eig_minus / eig_plus

/-! ## Template matcher scoring mask (source lines 839-912) -/

/-- A 2×2 matrix `[[a, b], [c, d]]` over `ℚ` (the lattice transform `M`). -/
structure Mat2 where
  a : ℚ
  b : ℚ
  c : ℚ
  d : ℚ
deriving DecidableEq

/-- `Mat2` product, row-times-column. -/
def Mat2.mul (m n : Mat2) : Mat2 :=
  ⟨m.a * n.a + m.b * n.c, m.a * n.b + m.b * n.d,
   m.c * n.a + m.d * n.c, m.c * n.b + m.d * n.d⟩

/-- numpy `astype(int)` on a rational: truncation toward zero. -/
def ratTrunc (q : ℚ) : ℤ :=
  Int.tdiv q.num (q.den : ℤ)

/-- One expected spot center of an `Nx × Ny` array in lattice coordinates
(source lines 841-845): `x_list[i] = i - (Nx-1)/2`, `y_list[j] = j - (Ny-1)/2`. -/
def latticePt (Nx Ny i j : Nat) : ℚ × ℚ :=
  ((i : ℚ) - ((Nx : ℚ) - 1) / 2, (j : ℚ) - ((Ny : ℚ) - 1) / 2)

/-- The set of the `Nx·Ny` expected spot centers in lattice coordinates.
The padded grid of source lines 848-857 is `latticePts (Nx+2) (Ny+2)`. -/
def latticePts (Nx Ny : Nat) : Finset (ℚ × ℚ) :=
  (Finset.range Nx ×ˢ Finset.range Ny).image fun ij => latticePt Nx Ny ij.1 ij.2

/-- Rasterization of one lattice point (source lines 871-902): apply the
trial matrix `M`, add the centering shift `s` (`np.flip(mask.shape)/2`),
and truncate to integer pixel coordinates (`astype(np.int)`). -/
def rasterPt (M : Mat2) (s : ℚ × ℚ) (p : ℚ × ℚ) : ℤ × ℤ :=
  (ratTrunc (M.a * p.1 + M.b * p.2 + s.1), ratTrunc (M.c * p.1 + M.d * p.2 + s.2))

/-- `np.amax` over a raveled list of coordinates (the lattice lists used
below are never empty; the `[]` case is unreachable padding). -/
def listMax : List ℚ → ℚ
  | [] => 0
  | x :: xs => xs.foldl max x

/-- `np.amin` over a raveled list of coordinates. -/
def listMin : List ℚ → ℚ
  | [] => 0
  | x :: xs => xs.foldl min x

/-- The raveled list of the `Nx · Ny` lattice points (meshgrid ravel order,
`y` outer). -/
def latticeList (Nx Ny : Nat) : List (ℚ × ℚ) :=
  (List.range Ny).flatMap fun j => (List.range Nx).map fun i => latticePt Nx Ny i j

/-- `rotated_centers_larger[0, :]` before the centering shift: the x
coordinates of `M @ centers` over a lattice (source lines 871-872). -/
def latticeXs (Nx Ny : Nat) (M : Mat2) : List ℚ :=
  (latticeList Nx Ny).map fun p => M.a * p.1 + M.b * p.2

/-- The y coordinates of `M @ centers` over a lattice. -/
def latticeYs (Nx Ny : Nat) (M : Mat2) : List ℚ :=
  (latticeList Nx Ny).map fun p => M.c * p.1 + M.d * p.2

/-- `max_pitch = int(np.amax([norm(M[:,0]), norm(M[:,1])]))` (source lines
875-877), computed exactly: the norms are non-negative, so
`int(max(√a, √b)) = ⌊√(max a b)⌋`, and `⌊√q⌋ = Nat.sqrt ⌊q⌋` for `q ≥ 0`
because both sides are the largest `n` with `n² ≤ q` (`n²` being an
integer). -/
def maxPitch (M : Mat2) : Nat :=
  Nat.sqrt (⌊max (M.a ^ 2 + M.c ^ 2) (M.b ^ 2 + M.d ^ 2)⌋).toNat

/-- The allocated canvas width
`int(np.amax(x) - np.amin(x) + max_pitch)` over the rasterized padded
lattice (source lines 879-892); `int()` truncates, which here equals the
floor since the argument is non-negative. -/
def maskW (Nx Ny : Nat) (M : Mat2) : Nat :=
  (ratTrunc (listMax (latticeXs (Nx + 2) (Ny + 2) M) -
    listMin (latticeXs (Nx + 2) (Ny + 2) M) + (maxPitch M : ℚ))).toNat

/-- The allocated canvas height, from the y extents (source lines 879-892). -/
def maskH (Nx Ny : Nat) (M : Mat2) : Nat :=
  (ratTrunc (listMax (latticeYs (Nx + 2) (Ny + 2) M) -
    listMin (latticeYs (Nx + 2) (Ny + 2) M) + (maxPitch M : ℚ))).toNat

/-- The centering shift `np.flip(mask.shape) / 2` added to both point grids
after the canvas is allocated (source lines 894-895). -/
def maskShiftC (Nx Ny : Nat) (M : Mat2) : ℚ × ℚ :=
  ((maskW Nx Ny M : ℚ) / 2, (maskH Nx Ny M : ℚ) / 2)

/-- The canvas cell `(x, y)` that a fancy-index assignment writes, under
numpy index resolution on a `(H, W)` canvas; `none` is an `IndexError`,
which at source lines 909-910 is outside any `try` and so propagates. -/
def assignPix (W H : Nat) (z : ℤ × ℤ) : Option (Nat × Nat) :=
  match npWrapIndex W z.1, npWrapIndex H z.2 with
  | some x, some y => some (x, y)
  | _, _ => none

/-- Whether the fancy-index assignment of the rasterized `Nx' × Ny'` grid
stays within numpy's accepted index range on the canvas allocated for the
array size `(Nx, Ny)`. -/
def assignOk (Nx Ny : Nat) (M : Mat2) (Nx' Ny' : Nat) : Prop :=
  ∀ p ∈ latticePts Nx' Ny',
    (assignPix (maskW Nx Ny M) (maskH Nx Ny M)
      (rasterPt M (maskShiftC Nx Ny M) p)).isSome = true

instance (Nx Ny : Nat) (M : Mat2) (Nx' Ny' : Nat) :
    Decidable (assignOk Nx Ny M Nx' Ny') := by
  unfold assignOk
  infer_instance

/-- The set of canvas cells hit by the rasterized `Nx' × Ny'` grid. -/
def maskPixN (Nx Ny : Nat) (M : Mat2) (Nx' Ny' : Nat) : Finset (Nat × Nat) :=
  (latticePts Nx' Ny').image fun p =>
    (assignPix (maskW Nx Ny M) (maskH Nx Ny M)
      (rasterPt M (maskShiftC Nx Ny M) p)).getD (0, 0)

/-- The value of the scoring mask at canvas cell `q = (x, y)` (source lines
906-910): `mask[y_larger, x_larger] = -area` then
`mask[y_array, x_array] = perimeter` on the zero canvas, the second fancy
assignment overwriting the first. -/
def maskValueAt (Nx Ny : Nat) (M : Mat2) (q : Nat × Nat) : ℤ :=
  if q ∈ maskPixN Nx Ny M Nx Ny then (2 * (Nx + Ny) + 4 : ℤ)
  else if q ∈ maskPixN Nx Ny M (Nx + 2) (Ny + 2) then -(Nx * Ny : ℤ)
  else 0

/-- The total intensity of the scoring mask (before `_make_8bit` rescaling),
built as the source does: allocate the canvas from the rasterized extents
and the largest pitch, perform the two fancy-index assignments — raising
`IndexError` when an index falls outside numpy's accepted range — and sum
over every canvas cell. -/
def blobMaskTotal (Nx Ny : Nat) (M : Mat2) : Except String ℤ :=
  if assignOk Nx Ny M (Nx + 2) (Ny + 2) ∧ assignOk Nx Ny M Nx Ny then
    .ok (∑ q in Finset.range (maskW Nx Ny M) ×ˢ Finset.range (maskH Nx Ny M),
      maskValueAt Nx Ny M q)
  else
    .error "IndexError"

/-- A candidate transform whose rasterization completes in-bounds but
collides: pitch 2, canvas 3×8, and the two array rows land on the same
canvas row. -/
def collideMat : Mat2 := ⟨2, 0, 0, 1/2⟩

/-- A candidate transform whose rasterization completes in-bounds with no
collisions (pitch 4, canvas 12×12). -/
def witMat : Mat2 := ⟨4, 0, 0, 4⟩

/-! ## Parity resolver (source lines 927-995) and candidate selection
(source lines 997-1009)

The parity check runs inside `try/except`: any failed `assert` (or indexing
error) is caught, keeping the un-rotated `M_trial` with
`parity_success = False`.  The sampled spot powers — `spotpowers`, reshaped
to `np.flip(size) = (Ny, Nx)` — are taken here as the input grid; everything
from source line 956 onward is embedded. -/

/-- The `(Ny, Nx)` grid of integrated spot powers (`spotpowers`,
source lines 950-953). -/
structure QGrid where
  ny : Nat
  nx : Nat
  val : Nat → Nat → ℚ

/-- A boolean grid (`spotbooleans` and its rotations). -/
structure BGrid where
  ny : Nat
  nx : Nat
  val : Nat → Nat → Bool

/-- The raveled list of grid values (row-major, like `numpy.ravel`). -/
def QGrid.ravel (g : QGrid) : List ℚ :=
  (List.range g.ny).flatMap fun y => (List.range g.nx).map fun x => g.val y x

/-- `np.sort(spotpowers.ravel())[1]` (source line 956): the second entry of
the ascending sort, `none` when the grid has fewer than two entries (that
`IndexError` is caught by the surrounding `except`). -/
def secondSmallest (g : QGrid) : Option ℚ :=
  (g.ravel.insertionSort (· ≤ ·)).get? 1

/-- `spotbooleans = spotpowers <= np.sort(spotpowers.ravel())[1]`
(source line 956), given the threshold `s`. -/
def spotBooleans (g : QGrid) (s : ℚ) : BGrid :=
  ⟨g.ny, g.nx, fun y x => decide (g.val y x ≤ s)⟩

/-- The number of `true` entries of a boolean grid (`np.sum(spotbooleans)`). -/
def BGrid.countTrue (b : BGrid) : Nat :=
  ∑ y in Finset.range b.ny, ∑ x in Finset.range b.nx,
    (if b.val y x then 1 else 0)

/-- `np.sum(spotbooleans)` with the dimmest-spot threshold folded in:
`0` when the threshold does not exist. -/
def dimSpotCount (g : QGrid) : Nat :=
  match secondSmallest g with
  | none => 0
  | some s => (spotBooleans g s).countTrue

/-- `corners = spotbooleans[[-1, -1, 0, 0], [-1, 0, 0, -1]]`
(source line 961): the four corner flags in the source's order
`(-1,-1), (-1,0), (0,0), (0,-1)`. -/
def cornerFlags (b : BGrid) : List Bool :=
  [b.val (b.ny - 1) (b.nx - 1), b.val (b.ny - 1) 0,
   b.val 0 0, b.val 0 (b.nx - 1)]

/-- `np.sum(corners)` (source line 963), `0` when no threshold exists. -/
def dimCornerCount (g : QGrid) : Nat :=
  match secondSmallest g with
  | none => 0
  | some s => ((cornerFlags (spotBooleans g s)).filter id).length

/-- `rotation_parity = np.where(corners)[0][0]` (source line 966): index of
the first `true` corner flag. -/
def rotParity (g : QGrid) : Nat :=
  match secondSmallest g with
  | none => 0
  | some s => (cornerFlags (spotBooleans g s)).findIdx id

/-- One `np.rot90` (counter-clockwise quarter turn):
`rot90(m)[i, j] = m[j, ncols - 1 - i]`, shape `(r, c) ↦ (c, r)`. -/
def BGrid.rot90 (b : BGrid) : BGrid :=
  ⟨b.nx, b.ny, fun i j => b.val j (b.nx - 1 - i)⟩

/-- `np.rot90(m, k)`: `k` successive quarter turns. -/
def BGrid.rotN (b : BGrid) : Nat → BGrid
  | 0 => b
  | k + 1 => (b.rotN k).rot90

/-- `flip_parity = int(rotated[-1, -2]) - int(rotated[-2, -1])`
(source lines 975-977), `none` when either index `-2` would raise (a
dimension smaller than 2; numpy index `-2` is then out of range and the
`IndexError` is caught by the surrounding `except`). -/
def flipParity (g : QGrid) : Option ℤ :=
  match secondSmallest g with
  | none => none
  | some s =>
    let b := (spotBooleans g s).rotN (rotParity g)
    if 2 ≤ b.ny ∧ 2 ≤ b.nx then
      some ((if b.val (b.ny - 1) (b.nx - 2) then 1 else 0) -
        (if b.val (b.ny - 2) (b.nx - 1) then 1 else 0))
    else none

/-- `abs(flip_parity) == 1` together with definedness (source line 979). -/
def flipParityOk (g : QGrid) : Bool :=
  match flipParity g with
  | none => false
  | some f => decide (f = 1 ∨ f = -1)

/-- The exact rotation matrix `[[cos θ, -sin θ], [sin θ, cos θ]]` at
`θ = k·π/2` (source lines 969-972; the model evaluates the trigonometry
exactly). -/
def rotMat (k : Nat) : Mat2 :=
  match k % 4 with
  | 0 => ⟨1, 0, 0, 1⟩
  | 1 => ⟨0, -1, 1, 0⟩
  | 2 => ⟨-1, 0, 0, -1⟩
  | _ => ⟨0, 1, -1, 0⟩

/-- The reflection factor (source lines 981-984): identity when
`flip_parity == 1`, else the transpose swap `[[0, 1], [1, 0]]`. -/
def flipMat (f : ℤ) : Mat2 :=
  if f = 1 then ⟨1, 0, 0, 1⟩ else ⟨0, 1, 1, 0⟩

/-- The parity check on one candidate (source lines 928-992).  The nested
conditions mirror the source's `assert` statements in order; any failure is
the caught-exception path, which keeps the un-rotated `M_trial` and flags
`parity_success = False` (source lines 988-992). -/
def parityCheck (M : Mat2) (g : QGrid) : Mat2 × Bool :=
  if dimSpotCount g = 2 then
    if dimCornerCount g = 1 then
      if flipParityOk g then
        (M.mul ((rotMat (rotParity g)).mul (flipMat ((flipParity g).getD 0))), true)
      else (M, false)
    else (M, false)
  else (M, false)

/-- The per-candidate parity stage (source lines 927-995): the check runs
only when `orientation is None and orientation_check`; otherwise the
candidate keeps `M_trial` unchanged and `parity_success = True`.
`orientationNone` is `orientation is None` (no prior guess supplied). -/
def parity_stage (orientationNone orientation_check : Bool) (M : Mat2)
    (g : QGrid) : Mat2 × Bool :=
  if orientationNone && orientation_check then parityCheck M g else (M, true)

/-- One entry of `results` (source line 997): correlation score `max_val`,
offset `b`, matrix `M_fixed`, and the parity flag. -/
structure CandResult where
  score : ℚ
  bx : ℚ
  by_ : ℚ
  M : Mat2
  parity_success : Bool

/-- Candidate selection for the two-candidate case (source lines 999-1007):
with equal parity flags the index is `int(results[1][0] > results[0][0])`,
otherwise it is `int(results[1][3])`. -/
def selectIndex (r0 r1 : CandResult) : Nat :=
  if r0.parity_success = r1.parity_success then
    (if r0.score < r1.score then 1 else 0)
  else
    (if r1.parity_success then 1 else 0)

/-- `results[index]` for the two-candidate case. -/
def pickCand (r0 r1 : CandResult) (i : Nat) : CandResult :=
  if i = 1 then r1 else r0

/-! ## Remaining concrete inputs used by witnesses and counterexamples -/

/-- A 2×2 all-zero image (zero total intensity). -/
def zeroImage : Image := ⟨2, 2, fun _ _ => 0⟩

/-- A 1×1 image of intensity 2 (positive total intensity). -/
def posImage : Image := ⟨1, 1, fun _ _ => 2⟩

/-- A 2×2 spot-power grid with all powers equal: every entry is `≤` the
second-smallest, so the dimmest-spot count is 4, not 2. -/
def flatGrid : QGrid := ⟨2, 2, fun _ _ => 5⟩

/-! ## Helper lemmas -/

theorem optSum_eq_sum (f : Nat → Option ℚ) (g : Nat → ℚ) :
    ∀ m, (∀ i, i < m → f i = some (g i)) →
      optSum f m = some (∑ i in Finset.range m, g i) := by
  intro m
  induction m with
  | zero => intro _; simp [optSum]
  | succ m ih =>
    intro h
    rw [optSum, ih (fun i hi => h i (by omega)), h m (by omega),
      Finset.sum_range_succ]

theorem optSum_eq_none (f : Nat → Option ℚ) :
    ∀ m, (∃ i, i < m ∧ f i = none) → optSum f m = none := by
  intro m
  induction m with
  | zero => rintro ⟨i, hi, -⟩; omega
  | succ m ih =>
    rintro ⟨i, hi, hfi⟩
    rw [optSum]
    rcases Nat.lt_or_ge i m with h | h
    · rw [ih ⟨i, h, hfi⟩]
    · have him : i = m := by omega
      subst him
      rw [hfi]
      cases hopt : optSum f i <;> rfl

theorem npWrapIndex_inRange (dim : Nat) (i : Int) (h0 : 0 ≤ i)
    (h1 : i < (dim : Int)) : npWrapIndex dim i = some i.toNat := by
  rw [npWrapIndex, if_pos ⟨h0, h1⟩]

theorem takeOOB_eq_false_of_inRange (S : Stack) (vs : List (Int × Int))
    (sw sh : Nat) (centered : Bool)
    (H : ∀ k < vs.length, ∀ i < sw * sh,
      0 ≤ regionIx sw centered (vs.getD k (0, 0)).1 i ∧
      regionIx sw centered (vs.getD k (0, 0)).1 i < (S.w : Int) ∧
      0 ≤ regionIy sw sh centered (vs.getD k (0, 0)).2 i ∧
      regionIy sw sh centered (vs.getD k (0, 0)).2 i < (S.h : Int)) :
    takeOOB S vs sw sh centered = false := by
  rw [takeOOB, List.any_eq_false]
  intro k hk
  rw [Bool.not_eq_true, List.any_eq_false]
  intro i hi
  obtain ⟨a, b, c, d⟩ := H k (List.mem_range.mp hk) i (List.mem_range.mp hi)
  rw [Bool.not_eq_true, npWrapIndex_inRange _ _ a b, npWrapIndex_inRange _ _ c d]
  rfl

theorem image_normalization_eq_total (img : Image) :
    image_normalization img = imageTotal img := by
  rw [image_normalization, image_moment, imageTotal]
  simp [momentEdgeX]

theorem latticePts_card (Nx Ny : Nat) : (latticePts Nx Ny).card = Nx * Ny := by
  rw [latticePts, Finset.card_image_of_injOn, Finset.card_product,
    Finset.card_range, Finset.card_range]
  intro p _ q _ hpq
  simp only [latticePt, Prod.mk.injEq] at hpq
  obtain ⟨h1, h2⟩ := hpq
  have e1 : (p.1 : ℚ) = q.1 := by linarith
  have e2 : (p.2 : ℚ) = q.2 := by linarith
  exact Prod.ext (by exact_mod_cast e1) (by exact_mod_cast e2)

theorem latticePts_sub (Nx Ny : Nat) :
    latticePts Nx Ny ⊆ latticePts (Nx + 2) (Ny + 2) := by
  intro p hp
  simp only [latticePts, Finset.mem_image, Finset.mem_product,
    Finset.mem_range] at hp ⊢
  obtain ⟨⟨i, j⟩, ⟨hi, hj⟩, rfl⟩ := hp
  refine ⟨(i + 1, j + 1), ⟨by omega, by omega⟩, ?_⟩
  simp only [latticePt, Prod.mk.injEq]
  constructor <;> push_cast <;> ring

/-! ## Claim theorems -/

/-- C9: when a prior orientation guess is supplied (`orientation is None`
fails), the parity check is skipped even with `orientation_check=True`: the
candidate's `M` is returned unchanged, `parity_success` is `True`, and no
spot power is sampled (the result is independent of the power grid `g`). -/
theorem parity_skip_with_prior_orientation (oc : Bool) (M : Mat2) (g : QGrid) :
    parity_stage false oc M g = (M, true) := by
  simp [parity_stage]

/-- C3: with two candidate transforms, the selection of `blob_array_detect`
picks the candidate that passed the parity check when exactly one did, and
otherwise (both or neither passed) picks the one with the strictly higher
correlation score. -/
theorem blob_array_detect_candidate_selection (r0 r1 : CandResult) :
    (r0.parity_success ≠ r1.parity_success →
      (pickCand r0 r1 (selectIndex r0 r1)).parity_success = true) ∧
    (r0.parity_success = r1.parity_success → r0.score ≠ r1.score →
      (pickCand r0 r1 (selectIndex r0 r1)).score = max r0.score r1.score) := by
  constructor
  · intro hne
    cases h0 : r0.parity_success <;> cases h1 : r1.parity_success <;>
      simp_all [selectIndex, pickCand]
  · intro heq hscore
    unfold selectIndex pickCand
    rw [if_pos heq]
    by_cases hlt : r0.score < r1.score
    · rw [if_pos hlt]
      simp [max_eq_right (le_of_lt hlt)]
    · rw [if_neg hlt]
      simp [max_eq_left (le_of_not_lt hlt)]

/-- Witness for C3: a concrete pair where only the second candidate passed
parity (it is selected despite the lower score), and a concrete pair with
equal parity flags (the higher-scoring one is selected). -/
theorem blob_array_detect_candidate_selection_witness :
    (pickCand ⟨5, 0, 0, ⟨1, 0, 0, 1⟩, false⟩ ⟨3, 0, 0, ⟨1, 0, 0, 1⟩, true⟩
      (selectIndex ⟨5, 0, 0, ⟨1, 0, 0, 1⟩, false⟩
        ⟨3, 0, 0, ⟨1, 0, 0, 1⟩, true⟩)).parity_success = true ∧
    (pickCand ⟨5, 0, 0, ⟨1, 0, 0, 1⟩, true⟩ ⟨3, 0, 0, ⟨1, 0, 0, 1⟩, true⟩
      (selectIndex ⟨5, 0, 0, ⟨1, 0, 0, 1⟩, true⟩
        ⟨3, 0, 0, ⟨1, 0, 0, 1⟩, true⟩)).score = max 5 3 :=
  ⟨(blob_array_detect_candidate_selection _ _).1 (by decide),
   (blob_array_detect_candidate_selection _ _).2 rfl (by norm_num)⟩

/-- C4: whenever the parity check fails one of its three tests — the dim-spot
count is not exactly two, or not exactly one of the four corners is dim, or
the second dim spot is not at one of the two positions adjacent to the dim
corner (`|flip_parity| ≠ 1`, including the out-of-range `-2` index on a
dimension smaller than 2) — the caught-exception path returns the un-rotated
`M` with `parity_success = False` instead of raising. -/
theorem parity_check_failure_no_raise (M : Mat2) (g : QGrid)
    (h : dimSpotCount g ≠ 2 ∨ dimCornerCount g ≠ 1 ∨ flipParityOk g = false) :
    parityCheck M g = (M, false) := by
  rw [parityCheck]
  rcases h with h | h | h
  · rw [if_neg h]
  · rcases eq_or_ne (dimSpotCount g) 2 with h2 | h2
    · rw [if_pos h2, if_neg h]
    · rw [if_neg h2]
  · rcases eq_or_ne (dimSpotCount g) 2 with h2 | h2
    · rcases eq_or_ne (dimCornerCount g) 1 with h3 | h3
      · rw [if_pos h2, if_pos h3, if_neg (by simp [h])]
      · rw [if_pos h2, if_neg h3]
    · rw [if_neg h2]

/-- Witness for C4: on the all-equal 2×2 power grid every spot ties for
dimmest, so the dim-spot count is 4 ≠ 2 and the candidate keeps its matrix
with `parity_success = False`. -/
theorem parity_check_failure_no_raise_witness :
    dimSpotCount flatGrid ≠ 2 ∧
    parityCheck ⟨1, 0, 0, 1⟩ flatGrid = (⟨1, 0, 0, 1⟩, false) :=
  ⟨by decide, parity_check_failure_no_raise ⟨1, 0, 0, 1⟩ flatGrid
    (Or.inl (by decide))⟩

/-- C2: the source's `image_ellipticity` computes
`determinant = m20 * m20 - m11 * m11` instead of the determinant
`m20 * m02 - m11 * m11` of the moment matrix that its own docstring and the
specification prescribe.  At the positive-semidefinite triplet
`(M20, M02, M11) = (1, 3/2, 0)` the source returns `3/4` while the
specified formula gives `1/3`; at the positive-semidefinite triplet
`(1, 9/2, 2)` the source returns `13/12`, outside the claimed `[0, 1]`. -/
theorem image_ellipticity_determinant_divergence :
    image_ellipticity 1 (3 / 2) 0 = 3 / 4 ∧
    image_ellipticity_spec 1 (3 / 2) 0 = 1 / 3 ∧
    image_ellipticity 1 (9 / 2) 2 = 13 / 12 := by
  refine ⟨?_, ?_, ?_⟩
  · rw [image_ellipticity]
    have hs : Real.sqrt ((((1 : ℝ) + 3 / 2) / 2) ^ 2 - (1 * 1 - 0 * 0)) = 3 / 4 := by
      rw [show ((((1 : ℝ) + 3 / 2) / 2) ^ 2 - (1 * 1 - 0 * 0)) = (3 / 4 : ℝ) ^ 2 by norm_num,
        Real.sqrt_sq (by norm_num : (0 : ℝ) ≤ 3 / 4)]
    rw [hs]
    norm_num
  · rw [image_ellipticity_spec]
    have hs : Real.sqrt ((((1 : ℝ) + 3 / 2) / 2) ^ 2 - (1 * (3 / 2) - 0 * 0)) = 1 / 4 := by
      rw [show ((((1 : ℝ) + 3 / 2) / 2) ^ 2 - (1 * (3 / 2) - 0 * 0)) = (1 / 4 : ℝ) ^ 2 by norm_num,
        Real.sqrt_sq (by norm_num : (0 : ℝ) ≤ 1 / 4)]
    rw [hs]
    norm_num
  · rw [image_ellipticity]
    have hs : Real.sqrt ((((1 : ℝ) + 9 / 2) / 2) ^ 2 - (1 * 1 - 2 * 2)) = 13 / 4 := by
      rw [show ((((1 : ℝ) + 9 / 2) / 2) ^ 2 - (1 * 1 - 2 * 2)) = (13 / 4 : ℝ) ^ 2 by norm_num,
        Real.sqrt_sq (by norm_num : (0 : ℝ) ≤ 13 / 4)]
    rw [hs]
    norm_num

/-- C5: with `clip=False`, a centered 3×3 region at point `(0, 0)` of a 5×5
image crosses the image bounds (indices `-1`), yet `take` does not fault:
numpy's negative indexing silently wraps to the opposite edge, so the
returned crop holds pixel `(4, 4)` (value 44) at its top-left corner.  With
`clip=True` the same call marks that position not-a-number and keeps the
in-range center pixel `(0, 0)` (value 0) intact, as the claim states. -/
theorem take_clip_false_negative_wrap :
    (∃ d, take wrapStack [(0, 0)] 3 3 true false false true =
        .ok (.cropped 1 3 3 d) ∧ d 0 0 0 = some 44 ∧ d 0 1 1 = some 0) ∧
    (∃ d, take wrapStack [(0, 0)] 3 3 true false true true =
        .ok (.cropped 1 3 3 d) ∧ d 0 0 0 = none ∧ d 0 1 1 = some 0) := by
  refine ⟨⟨_, rfl, by decide, by decide⟩, ⟨_, rfl, by decide, by decide⟩⟩

/-- Counterexample to C1 as stated: for a stack of `N = 2` images,
`integrate=False` does not return a `(K, h, w)` array of crops — the final
`np.reshape` faults — and `integrate=True` returns one sum per image per
point (shape `(N, K)`, here with the distinct sums 0 and 4), not a flat
`(K,)` array of sums. -/
theorem take_stack_claim_false :
    take twoStack [(1, 1)] 2 2 true false false true = .error "cannot reshape" ∧
    (∃ d, take twoStack [(1, 1)] 2 2 true true false true =
        .ok (.integrated 2 1 d) ∧ d 0 0 = some 0 ∧ d 1 0 = some 4) := by
  refine ⟨rfl, ⟨_, rfl, ?_, ?_⟩⟩ <;>
    norm_num [optSum, twoStack, npWrapIndex, regionIx, regionIy, takeOff]

/-- C10: with `clip=True` and `integrate=True` on a not-a-number-capable
(floating-point) image stack, any region `k` that crosses the image bounds
integrates to not-a-number: the `nan` markers written at the out-of-range
positions flow through the plain `np.sum`. -/
theorem take_clip_integrate_nan (S : Stack) (vs : List (Int × Int))
    (sw sh : Nat) (centered : Bool) (k : Nat) (_hk : k < vs.length)
    (hcross : ∃ i, i < sw * sh ∧
      takeMask S.w S.h sw sh centered (vs.getD k (0, 0)) i = true) :
    ∃ d, take S vs sw sh centered true true true =
      .ok (.integrated S.n vs.length d) ∧ ∀ n, d n k = none := by
  refine ⟨_, rfl, ?_⟩
  intro n
  apply optSum_eq_none
  obtain ⟨i, hi, hm⟩ := hcross
  refine ⟨i, hi, ?_⟩
  simp only [hm]
  simp

/-- Witness for C10: the centered 3×3 region at `(0, 0)` of the 5×5 image
crosses the bounds, and its integrated value is `none`. -/
theorem take_clip_integrate_nan_witness :
    (0 < 1 ∧ ∃ i, i < 9 ∧ takeMask 5 5 3 3 true ((0 : ℤ), (0 : ℤ)) i = true) ∧
    (∃ d, take wrapStack [(0, 0)] 3 3 true true true true =
      .ok (.integrated 1 1 d) ∧ ∀ n, d n 0 = none) :=
  ⟨⟨by decide, ⟨0, by decide, by decide⟩⟩,
   take_clip_integrate_nan wrapStack [(0, 0)] 3 3 true 0 (by decide)
     ⟨0, by decide, by decide⟩⟩

/-- C7: an image of exactly zero total intensity gets a normalization factor
of zero rather than a division fault: every normalized `image_moment`
evaluates to 0 for it, and `image_normalize` zeroes it — leaving it
unchanged when (as for intensity data) its pixels are non-negative, since a
non-negative image of zero mass is the all-zero image. -/
theorem image_moment_zero_mass (img : Image) (h0 : imageTotal img = 0) :
    (∀ mx my : Nat, ∀ cx cy : ℚ, image_moment img mx my cx cy true = 0) ∧
    (∀ y x : Nat, (image_normalize img).pix y x = 0) ∧
    ((∀ y, y < img.h → ∀ x, x < img.w → 0 ≤ img.pix y x) →
      ∀ y, y < img.h → ∀ x, x < img.w →
        (image_normalize img).pix y x = img.pix y x) := by
  have hr : recipGuard (imageTotal img) = 0 := by
    rw [h0]
    simp [recipGuard]
  have hnorm : ∀ y x : Nat, (image_normalize img).pix y x = 0 := by
    intro y x
    show img.pix y x * recipGuard (image_normalization img) = 0
    rw [image_normalization_eq_total, hr, mul_zero]
  have hzero : (∀ y, y < img.h → ∀ x, x < img.w → 0 ≤ img.pix y x) →
      ∀ y, y < img.h → ∀ x, x < img.w → img.pix y x = 0 := by
    intro hpos y hy x hx
    have hrow : ∀ yy ∈ Finset.range img.h,
        (0 : ℚ) ≤ ∑ xx in Finset.range img.w, img.pix yy xx :=
      fun yy hyy => Finset.sum_nonneg fun xx hxx =>
        hpos yy (Finset.mem_range.mp hyy) xx (Finset.mem_range.mp hxx)
    have hrow0 := (Finset.sum_eq_zero_iff_of_nonneg hrow).mp h0 y
      (Finset.mem_range.mpr hy)
    have hcell : ∀ xx ∈ Finset.range img.w, (0 : ℚ) ≤ img.pix y xx :=
      fun xx hxx => hpos y hy xx (Finset.mem_range.mp hxx)
    exact (Finset.sum_eq_zero_iff_of_nonneg hcell).mp hrow0 x
      (Finset.mem_range.mpr hx)
  refine ⟨?_, hnorm, ?_⟩
  · intro mx my cx cy
    simp only [image_moment]
    split_ifs <;> rw [hr, mul_zero]
  · intro hpos y hy x hx
    rw [hnorm y x, hzero hpos y hy x hx]

/-- Witness for C7: the all-zero 2×2 image has zero total intensity; its
default moment is 0 and its normalization leaves pixel `(0, 0)` at 0. -/
theorem image_moment_zero_mass_witness :
    imageTotal zeroImage = 0 ∧
    image_moment zeroImage 1 0 0 0 true = 0 ∧
    (image_normalize zeroImage).pix 0 0 = 0 := by
  have h0 : imageTotal zeroImage = 0 := by simp [imageTotal, zeroImage]
  exact ⟨h0, (image_moment_zero_mass zeroImage h0).1 1 0 0 0,
    (image_moment_zero_mass zeroImage h0).2.1 0 0⟩

/-- C8: for a stack in which every image has positive total intensity,
`image_moment` at moment `(0, 0)` with default centers `(0, 0)` and
`normalize=True` returns exactly 1 for every image (in the source the
`(0, 0)` moment takes the `moment[1] == 0` branch, whose trial function is
`(x - (w-1)/2)^0 - 0 = 1`, so the sum is the total mass times its guarded
reciprocal). -/
theorem image_moment_zero_zero_normalized (imgs : List Image)
    (hpos : ∀ img ∈ imgs, 0 < imageTotal img) :
    image_moment_stack imgs 0 0 0 0 true = imgs.map fun _ => (1 : ℚ) := by
  rw [image_moment_stack]
  apply List.map_congr_left
  intro img hmem
  have hne : imageTotal img ≠ 0 := ne_of_gt (hpos img hmem)
  have hsum : (∑ y in Finset.range img.h, ∑ x in Finset.range img.w,
      img.pix y x * momentEdgeX img.w 0 0 x) = imageTotal img := by
    rw [imageTotal]
    refine Finset.sum_congr rfl fun y _ => Finset.sum_congr rfl fun x _ => ?_
    simp [momentEdgeX]
  simp only [image_moment, if_true]
  rw [hsum, recipGuard, if_pos hne, mul_inv_cancel₀ hne]

/-- Witness for C8: a one-image stack of positive mass maps to `[1]`. -/
theorem image_moment_zero_zero_normalized_witness :
    (∀ img ∈ [posImage], 0 < imageTotal img) ∧
    image_moment_stack [posImage] 0 0 0 0 true = [(1 : ℚ)] := by
  have hpos : ∀ img ∈ [posImage], 0 < imageTotal img := by
    intro img hmem
    rw [List.mem_singleton.mp hmem]
    show (0 : ℚ) < imageTotal posImage
    simp [imageTotal, posImage]
  exact ⟨hpos, image_moment_zero_zero_normalized [posImage] hpos⟩

/-- `astype(int)` of an integer-valued rational is that integer. -/
theorem ratTrunc_intCast (z : ℤ) : ratTrunc (z : ℚ) = z := by
  rw [ratTrunc]
  simp

/-- `astype(int)` of a cast natural. -/
theorem ratTrunc_natCast (n : ℕ) : ratTrunc (n : ℚ) = (n : ℤ) := by
  rw [show ((n : ℕ) : ℚ) = (((n : ℤ)) : ℚ) by push_cast; ring, ratTrunc_intCast]

/-- On non-negative rationals, truncation toward zero is the floor. -/
theorem ratTrunc_of_nonneg (q : ℚ) (h : 0 ≤ q) : ratTrunc q = ⌊q⌋ := by
  rw [ratTrunc, Rat.floor_def,
    Int.tdiv_eq_ediv (Rat.num_nonneg.mpr h) (Int.natCast_nonneg _)]

/-- Evaluation of `astype(int)` on odd quarters:
`int((2m+1)/4) = m/2` (natural division). -/
theorem ratTrunc_odd_quarter (m : ℕ) :
    ratTrunc (((2 * m + 1 : ℕ) : ℚ) / 4) = ((m / 2 : ℕ) : ℤ) := by
  rw [ratTrunc_of_nonneg _ (by positivity), Int.floor_eq_iff]
  have h1 : ((m / 2 * 4 : ℕ) : ℚ) ≤ ((2 * m + 1 : ℕ) : ℚ) :=
    Nat.cast_le.mpr (by omega)
  have h2 : ((2 * m + 1 : ℕ) : ℚ) < (((m / 2 + 1) * 4 : ℕ) : ℚ) :=
    Nat.cast_lt.mpr (by omega)
  constructor
  · rw [le_div_iff₀ (by norm_num : (0 : ℚ) < 4)]
    calc ((((m / 2 : ℕ) : ℤ)) : ℚ) * 4 = ((m / 2 * 4 : ℕ) : ℚ) := by norm_cast
    _ ≤ ((2 * m + 1 : ℕ) : ℚ) := h1
  · rw [div_lt_iff₀ (by norm_num : (0 : ℚ) < 4)]
    calc ((2 * m + 1 : ℕ) : ℚ) < (((m / 2 + 1) * 4 : ℕ) : ℚ) := h2
    _ = (((((m / 2 : ℕ) : ℤ)) : ℚ) + 1) * 4 := by norm_cast

/-- A zero-extent canvas axis rejects every index. -/
theorem npWrapIndex_zero (z : ℤ) : npWrapIndex 0 z = none := by
  rw [npWrapIndex, if_neg (by omega), if_neg (by omega)]

/-- Counterexample to C6 as stated: the scoring-mask total is not zero for
every candidate transform.  For `collideMat = [[2, 0], [0, 1/2]]` and size
`(2, 2)` the construction completes in-bounds (pitch 2, canvas 3×8), but
rasterized lattice rows collide on shared canvas rows, leaving total `-16`;
and for the degenerate `M = 0` the allocated canvas is 0×0, so the first
fancy-index assignment raises `IndexError` and no mask is built at all. -/
theorem mask_total_nonzero_on_collision :
    blobMaskTotal 2 2 collideMat = .ok (-16) ∧
    blobMaskTotal 2 2 ⟨0, 0, 0, 0⟩ = .error "IndexError" := by
  constructor
  · have hXl : latticeXs (2 + 2) (2 + 2) collideMat =
        [-3, -1, 1, 3, -3, -1, 1, 3, -3, -1, 1, 3, -3, -1, 1, 3] := by
      norm_num [latticeXs, latticeList, latticePt, collideMat, List.range_succ]
    have hYl : latticeYs (2 + 2) (2 + 2) collideMat =
        [-3/4, -3/4, -3/4, -3/4, -1/4, -1/4, -1/4, -1/4,
          1/4, 1/4, 1/4, 1/4, 3/4, 3/4, 3/4, 3/4] := by
      norm_num [latticeYs, latticeList, latticePt, collideMat, List.range_succ]
    have hpitch : maxPitch collideMat = 2 := by
      rw [maxPitch]
      norm_num [collideMat, max_def]
      rw [show Int.toNat 4 = 4 from rfl]
      norm_num
    have hW : maskW 2 2 collideMat = 8 := by
      rw [maskW, hXl, hpitch]
      norm_num [listMax, listMin, max_def, min_def]
      rw [show (8 : ℚ) = ((8 : ℤ) : ℚ) by norm_num, ratTrunc_intCast]
      rfl
    have hH : maskH 2 2 collideMat = 3 := by
      rw [maskH, hYl, hpitch]
      norm_num [listMax, listMin, max_def, min_def]
      rw [ratTrunc_of_nonneg _ (by norm_num), show ⌊(7 / 2 : ℚ)⌋ = 3 from by norm_num]
      rfl
    have hsh : maskShiftC 2 2 collideMat = (4, 3 / 2) := by
      rw [maskShiftC, hW, hH]
      norm_num
    have hrastL : ∀ i j : ℕ,
        rasterPt collideMat (4, 3 / 2) (latticePt (2 + 2) (2 + 2) i j) =
        (((2 * i + 1 : ℕ) : ℤ), (((j + 1) / 2 : ℕ) : ℤ)) := by
      intro i j
      simp only [latticePt, rasterPt, collideMat]
      rw [show ((2 : ℚ) * ((i : ℚ) - (((2 + 2 : ℕ) : ℚ) - 1) / 2) +
          0 * ((j : ℚ) - (((2 + 2 : ℕ) : ℚ) - 1) / 2) + 4) = ((2 * i + 1 : ℕ) : ℚ) by
        push_cast; ring]
      rw [show ((0 : ℚ) * ((i : ℚ) - (((2 + 2 : ℕ) : ℚ) - 1) / 2) +
          1 / 2 * ((j : ℚ) - (((2 + 2 : ℕ) : ℚ) - 1) / 2) + 3 / 2) =
          ((2 * (j + 1) + 1 : ℕ) : ℚ) / 4 by push_cast; ring]
      rw [ratTrunc_natCast, ratTrunc_odd_quarter]
    have hrastC : ∀ i j : ℕ,
        rasterPt collideMat (4, 3 / 2) (latticePt 2 2 i j) =
        (((2 * i + 3 : ℕ) : ℤ), (((j + 2) / 2 : ℕ) : ℤ)) := by
      intro i j
      simp only [latticePt, rasterPt, collideMat]
      rw [show ((2 : ℚ) * ((i : ℚ) - (((2 : ℕ) : ℚ) - 1) / 2) +
          0 * ((j : ℚ) - (((2 : ℕ) : ℚ) - 1) / 2) + 4) = ((2 * i + 3 : ℕ) : ℚ) by
        push_cast; ring]
      rw [show ((0 : ℚ) * ((i : ℚ) - (((2 : ℕ) : ℚ) - 1) / 2) +
          1 / 2 * ((j : ℚ) - (((2 : ℕ) : ℚ) - 1) / 2) + 3 / 2) =
          ((2 * (j + 2) + 1 : ℕ) : ℚ) / 4 by push_cast; ring]
      rw [ratTrunc_natCast, ratTrunc_odd_quarter]
    have hsomeL : ∀ i : ℕ, i < 2 + 2 → ∀ j : ℕ, j < 2 + 2 →
        assignPix 8 3 (rasterPt collideMat (4, 3 / 2)
          (latticePt (2 + 2) (2 + 2) i j)) = some (2 * i + 1, (j + 1) / 2) := by
      intro i hi j hj
      rw [hrastL i j, assignPix]
      rw [npWrapIndex_inRange _ _ (Int.natCast_nonneg _)
        (by exact_mod_cast (by omega : 2 * i + 1 < 8))]
      rw [npWrapIndex_inRange _ _ (Int.natCast_nonneg _)
        (by exact_mod_cast (by omega : (j + 1) / 2 < 3))]
      simp only [Int.toNat_natCast]
    have hsomeC : ∀ i : ℕ, i < 2 → ∀ j : ℕ, j < 2 →
        assignPix 8 3 (rasterPt collideMat (4, 3 / 2)
          (latticePt 2 2 i j)) = some (2 * i + 3, (j + 2) / 2) := by
      intro i hi j hj
      rw [hrastC i j, assignPix]
      rw [npWrapIndex_inRange _ _ (Int.natCast_nonneg _)
        (by exact_mod_cast (by omega : 2 * i + 3 < 8))]
      rw [npWrapIndex_inRange _ _ (Int.natCast_nonneg _)
        (by exact_mod_cast (by omega : (j + 2) / 2 < 3))]
      simp only [Int.toNat_natCast]
    have hokL : assignOk 2 2 collideMat (2 + 2) (2 + 2) := by
      intro p hp
      simp only [latticePts, Finset.mem_image, Finset.mem_product,
        Finset.mem_range] at hp
      obtain ⟨⟨i, j⟩, ⟨hi, hj⟩, rfl⟩ := hp
      rw [hW, hH, hsh, hsomeL i hi j hj]
      rfl
    have hokC : assignOk 2 2 collideMat 2 2 := by
      intro p hp
      simp only [latticePts, Finset.mem_image, Finset.mem_product,
        Finset.mem_range] at hp
      obtain ⟨⟨i, j⟩, ⟨hi, hj⟩, rfl⟩ := hp
      rw [hW, hH, hsh, hsomeC i hi j hj]
      rfl
    have hsetL : maskPixN 2 2 collideMat (2 + 2) (2 + 2) =
        (Finset.range (2 + 2) ×ˢ Finset.range (2 + 2)).image
          (fun ij : ℕ × ℕ => (2 * ij.1 + 1, (ij.2 + 1) / 2)) := by
      rw [maskPixN, latticePts, Finset.image_image]
      apply Finset.image_congr
      intro ij hij
      obtain ⟨hi, hj⟩ := Finset.mem_product.mp (Finset.mem_coe.mp hij)
      show (assignPix (maskW 2 2 collideMat) (maskH 2 2 collideMat)
        (rasterPt collideMat (maskShiftC 2 2 collideMat)
          (latticePt (2 + 2) (2 + 2) ij.1 ij.2))).getD (0, 0) = _
      rw [hW, hH, hsh,
        hsomeL ij.1 (Finset.mem_range.mp hi) ij.2 (Finset.mem_range.mp hj)]
      rfl
    have hsetC : maskPixN 2 2 collideMat 2 2 =
        (Finset.range 2 ×ˢ Finset.range 2).image
          (fun ij : ℕ × ℕ => (2 * ij.1 + 3, (ij.2 + 2) / 2)) := by
      rw [maskPixN, latticePts, Finset.image_image]
      apply Finset.image_congr
      intro ij hij
      obtain ⟨hi, hj⟩ := Finset.mem_product.mp (Finset.mem_coe.mp hij)
      show (assignPix (maskW 2 2 collideMat) (maskH 2 2 collideMat)
        (rasterPt collideMat (maskShiftC 2 2 collideMat)
          (latticePt 2 2 ij.1 ij.2))).getD (0, 0) = _
      rw [hW, hH, hsh,
        hsomeC ij.1 (Finset.mem_range.mp hi) ij.2 (Finset.mem_range.mp hj)]
      rfl
    rw [blobMaskTotal, if_pos ⟨hokL, hokC⟩, hW, hH]
    simp only [maskValueAt, hsetL, hsetC]
    exact congrArg Except.ok (by decide)
  · have hXl0 : latticeXs (2 + 2) (2 + 2) (⟨0, 0, 0, 0⟩ : Mat2) =
        [0, 0, 0, 0, 0, 0, 0, 0, 0, 0, 0, 0, 0, 0, 0, 0] := by
      norm_num [latticeXs, latticeList, latticePt, List.range_succ]
    have hpitch0 : maxPitch ⟨0, 0, 0, 0⟩ = 0 := by
      rw [maxPitch]
      norm_num [max_def]
    have hW0 : maskW 2 2 ⟨0, 0, 0, 0⟩ = 0 := by
      rw [maskW, hXl0, hpitch0]
      norm_num [listMax, listMin, max_def, min_def]
      rw [show (0 : ℚ) = ((0 : ℤ) : ℚ) by norm_num, ratTrunc_intCast]
    rw [blobMaskTotal, if_neg]
    rintro ⟨hA, -⟩
    have h00 : ((0, 0) : ℕ × ℕ) ∈ Finset.range (2 + 2) ×ˢ Finset.range (2 + 2) :=
      Finset.mem_product.mpr
        ⟨Finset.mem_range.mpr (by norm_num), Finset.mem_range.mpr (by norm_num)⟩
    have hmem : latticePt (2 + 2) (2 + 2) 0 0 ∈ latticePts (2 + 2) (2 + 2) := by
      rw [latticePts]
      exact Finset.mem_image_of_mem _ h00
    have hbad := hA _ hmem
    rw [hW0] at hbad
    simp [assignPix, npWrapIndex_zero] at hbad

/-- C6 (amended): whenever every rasterized point of the padded
`(Nx+2) × (Ny+2)` lattice lands inside the allocated canvas and the
rasterization is collision-free (injective on the lattice points), the
scoring mask builds without error and its total intensity is exactly zero:
the `Nx·Ny` spot cells hold `2·(Nx+Ny)+4` and the `2·(Nx+Ny)+4` remaining
border cells hold `−(Nx·Ny)`. -/
theorem mask_total_zero_of_injective (Nx Ny : Nat) (M : Mat2)
    (hbound : ∀ p ∈ latticePts (Nx + 2) (Ny + 2),
      0 ≤ (rasterPt M (maskShiftC Nx Ny M) p).1 ∧
      (rasterPt M (maskShiftC Nx Ny M) p).1 < (maskW Nx Ny M : ℤ) ∧
      0 ≤ (rasterPt M (maskShiftC Nx Ny M) p).2 ∧
      (rasterPt M (maskShiftC Nx Ny M) p).2 < (maskH Nx Ny M : ℤ))
    (hinj : ∀ p ∈ latticePts (Nx + 2) (Ny + 2), ∀ q ∈ latticePts (Nx + 2) (Ny + 2),
      rasterPt M (maskShiftC Nx Ny M) p = rasterPt M (maskShiftC Nx Ny M) q → p = q) :
    blobMaskTotal Nx Ny M = .ok 0 := by
  classical
  have hsub := latticePts_sub Nx Ny
  have hsome : ∀ p ∈ latticePts (Nx + 2) (Ny + 2),
      assignPix (maskW Nx Ny M) (maskH Nx Ny M) (rasterPt M (maskShiftC Nx Ny M) p) =
      some ((rasterPt M (maskShiftC Nx Ny M) p).1.toNat,
        (rasterPt M (maskShiftC Nx Ny M) p).2.toNat) := by
    intro p hp
    obtain ⟨a, b, c, d⟩ := hbound p hp
    rw [assignPix, npWrapIndex_inRange _ _ a b, npWrapIndex_inRange _ _ c d]
  have hokL : assignOk Nx Ny M (Nx + 2) (Ny + 2) := by
    intro p hp
    rw [hsome p hp]
    rfl
  have hokC : assignOk Nx Ny M Nx Ny := by
    intro p hp
    rw [hsome p (hsub hp)]
    rfl
  have hinjf : Set.InjOn (fun p =>
      (assignPix (maskW Nx Ny M) (maskH Nx Ny M)
        (rasterPt M (maskShiftC Nx Ny M) p)).getD (0, 0))
      (latticePts (Nx + 2) (Ny + 2)) := by
    intro p hp q hq h
    have hp' := Finset.mem_coe.mp hp
    have hq' := Finset.mem_coe.mp hq
    simp only [hsome p hp', hsome q hq', Option.getD_some, Prod.mk.injEq] at h
    obtain ⟨h1, h2⟩ := h
    obtain ⟨a1, b1, c1, d1⟩ := hbound p hp'
    obtain ⟨a2, b2, c2, d2⟩ := hbound q hq'
    apply hinj p hp' q hq'
    have ex : (rasterPt M (maskShiftC Nx Ny M) p).1 =
        (rasterPt M (maskShiftC Nx Ny M) q).1 := by omega
    have ey : (rasterPt M (maskShiftC Nx Ny M) p).2 =
        (rasterPt M (maskShiftC Nx Ny M) q).2 := by omega
    exact Prod.ext ex ey
  have hinjfC : Set.InjOn (fun p =>
      (assignPix (maskW Nx Ny M) (maskH Nx Ny M)
        (rasterPt M (maskShiftC Nx Ny M) p)).getD (0, 0))
      (latticePts Nx Ny) := hinjf.mono (Finset.coe_subset.mpr hsub)
  have hcardL : (maskPixN Nx Ny M (Nx + 2) (Ny + 2)).card = (Nx + 2) * (Ny + 2) := by
    rw [maskPixN, Finset.card_image_of_injOn hinjf, latticePts_card]
  have hcardC : (maskPixN Nx Ny M Nx Ny).card = Nx * Ny := by
    rw [maskPixN, Finset.card_image_of_injOn hinjfC, latticePts_card]
  have hpixsub : maskPixN Nx Ny M Nx Ny ⊆ maskPixN Nx Ny M (Nx + 2) (Ny + 2) :=
    Finset.image_subset_image hsub
  have hcanvas : maskPixN Nx Ny M (Nx + 2) (Ny + 2) ⊆
      Finset.range (maskW Nx Ny M) ×ˢ Finset.range (maskH Nx Ny M) := by
    intro q hq
    rw [maskPixN, Finset.mem_image] at hq
    obtain ⟨p, hp, rfl⟩ := hq
    obtain ⟨a, b, c, d⟩ := hbound p hp
    rw [hsome p hp, Option.getD_some, Finset.mem_product, Finset.mem_range,
      Finset.mem_range]
    constructor <;> omega
  suffices hzero : (∑ q in Finset.range (maskW Nx Ny M) ×ˢ Finset.range (maskH Nx Ny M),
      maskValueAt Nx Ny M q) = 0 by
    rw [blobMaskTotal, if_pos ⟨hokL, hokC⟩, hzero]
  have hoff : ∀ q ∈ Finset.range (maskW Nx Ny M) ×ˢ Finset.range (maskH Nx Ny M),
      q ∉ maskPixN Nx Ny M (Nx + 2) (Ny + 2) → maskValueAt Nx Ny M q = 0 := by
    intro q _ hq
    rw [maskValueAt, if_neg (fun hc => hq (hpixsub hc)), if_neg hq]
  rw [show (∑ q in Finset.range (maskW Nx Ny M) ×ˢ Finset.range (maskH Nx Ny M),
      maskValueAt Nx Ny M q) =
      ∑ q in maskPixN Nx Ny M (Nx + 2) (Ny + 2), maskValueAt Nx Ny M q from
    (Finset.sum_subset hcanvas hoff).symm]
  have hsplit : ∀ q ∈ maskPixN Nx Ny M (Nx + 2) (Ny + 2), maskValueAt Nx Ny M q =
      (if q ∈ maskPixN Nx Ny M Nx Ny then (2 * (Nx + Ny) + 4 : ℤ)
        else -(Nx * Ny : ℤ)) := by
    intro q hq
    rw [maskValueAt]
    by_cases h : q ∈ maskPixN Nx Ny M Nx Ny
    · rw [if_pos h, if_pos h]
    · rw [if_neg h, if_neg h, if_pos hq]
  rw [Finset.sum_congr rfl hsplit]
  rw [Finset.sum_ite, Finset.sum_const, Finset.sum_const, Finset.filter_mem_eq_inter,
    Finset.inter_eq_right.mpr hpixsub, Finset.filter_not, Finset.filter_mem_eq_inter,
    Finset.inter_eq_right.mpr hpixsub, Finset.card_sdiff hpixsub, hcardL, hcardC]
  have hle : Nx * Ny ≤ (Nx + 2) * (Ny + 2) :=
    Nat.mul_le_mul (by omega) (by omega)
  simp only [nsmul_eq_mul]
  push_cast [hle]
  ring

/-- Witness for C6 (amended): for the 1×1 array with `witMat = 4·I` the
padded 3×3 lattice rasterizes to the nine distinct in-bounds canvas cells
`{2, 6, 10}²` of the 12×12 canvas, and the mask total is zero. -/
theorem mask_total_zero_of_injective_witness :
    ((∀ p ∈ latticePts (1 + 2) (1 + 2),
      0 ≤ (rasterPt witMat (maskShiftC 1 1 witMat) p).1 ∧
      (rasterPt witMat (maskShiftC 1 1 witMat) p).1 < (maskW 1 1 witMat : ℤ) ∧
      0 ≤ (rasterPt witMat (maskShiftC 1 1 witMat) p).2 ∧
      (rasterPt witMat (maskShiftC 1 1 witMat) p).2 < (maskH 1 1 witMat : ℤ)) ∧
    (∀ p ∈ latticePts (1 + 2) (1 + 2), ∀ q ∈ latticePts (1 + 2) (1 + 2),
      rasterPt witMat (maskShiftC 1 1 witMat) p =
        rasterPt witMat (maskShiftC 1 1 witMat) q → p = q)) ∧
    blobMaskTotal 1 1 witMat = .ok 0 := by
  have hXl : latticeXs (1 + 2) (1 + 2) witMat =
      [-4, 0, 4, -4, 0, 4, -4, 0, 4] := by
    norm_num [latticeXs, latticeList, latticePt, witMat, List.range_succ]
  have hYl : latticeYs (1 + 2) (1 + 2) witMat =
      [-4, -4, -4, 0, 0, 0, 4, 4, 4] := by
    norm_num [latticeYs, latticeList, latticePt, witMat, List.range_succ]
  have hpitch : maxPitch witMat = 4 := by
    rw [maxPitch]
    norm_num [witMat, max_def]
    rw [show Int.toNat 16 = 16 from rfl]
    norm_num
  have hW : maskW 1 1 witMat = 12 := by
    rw [maskW, hXl, hpitch]
    norm_num [listMax, listMin, max_def, min_def]
    rw [show (12 : ℚ) = ((12 : ℤ) : ℚ) by norm_num, ratTrunc_intCast]
    rfl
  have hH : maskH 1 1 witMat = 12 := by
    rw [maskH, hYl, hpitch]
    norm_num [listMax, listMin, max_def, min_def]
    rw [show (12 : ℚ) = ((12 : ℤ) : ℚ) by norm_num, ratTrunc_intCast]
    rfl
  have hsh : maskShiftC 1 1 witMat = (6, 6) := by
    rw [maskShiftC, hW, hH]
    norm_num
  have hrast : ∀ i j : ℕ,
      rasterPt witMat (6, 6) (latticePt (1 + 2) (1 + 2) i j) =
      (((4 * i + 2 : ℕ) : ℤ), ((4 * j + 2 : ℕ) : ℤ)) := by
    intro i j
    simp only [latticePt, rasterPt, witMat]
    rw [show ((4 : ℚ) * ((i : ℚ) - (((1 + 2 : ℕ) : ℚ) - 1) / 2) +
        0 * ((j : ℚ) - (((1 + 2 : ℕ) : ℚ) - 1) / 2) + 6) = ((4 * i + 2 : ℕ) : ℚ) by
      push_cast; ring]
    rw [show ((0 : ℚ) * ((i : ℚ) - (((1 + 2 : ℕ) : ℚ) - 1) / 2) +
        4 * ((j : ℚ) - (((1 + 2 : ℕ) : ℚ) - 1) / 2) + 6) = ((4 * j + 2 : ℕ) : ℚ) by
      push_cast; ring]
    rw [ratTrunc_natCast, ratTrunc_natCast]
  have hbound : ∀ p ∈ latticePts (1 + 2) (1 + 2),
      0 ≤ (rasterPt witMat (maskShiftC 1 1 witMat) p).1 ∧
      (rasterPt witMat (maskShiftC 1 1 witMat) p).1 < (maskW 1 1 witMat : ℤ) ∧
      0 ≤ (rasterPt witMat (maskShiftC 1 1 witMat) p).2 ∧
      (rasterPt witMat (maskShiftC 1 1 witMat) p).2 < (maskH 1 1 witMat : ℤ) := by
    intro p hp
    simp only [latticePts, Finset.mem_image, Finset.mem_product,
      Finset.mem_range] at hp
    obtain ⟨⟨i, j⟩, ⟨hi, hj⟩, rfl⟩ := hp
    rw [hsh, hW, hH, hrast i j]
    refine ⟨Int.natCast_nonneg _, ?_, Int.natCast_nonneg _, ?_⟩
    · exact_mod_cast Nat.cast_lt.mpr (show 4 * i + 2 < 12 by omega)
    · exact_mod_cast Nat.cast_lt.mpr (show 4 * j + 2 < 12 by omega)
  have hinj : ∀ p ∈ latticePts (1 + 2) (1 + 2), ∀ q ∈ latticePts (1 + 2) (1 + 2),
      rasterPt witMat (maskShiftC 1 1 witMat) p =
        rasterPt witMat (maskShiftC 1 1 witMat) q → p = q := by
    intro p hp q hq h
    simp only [latticePts, Finset.mem_image, Finset.mem_product,
      Finset.mem_range] at hp hq
    obtain ⟨⟨i, j⟩, ⟨hi, hj⟩, rfl⟩ := hp
    obtain ⟨⟨i', j'⟩, ⟨hi', hj'⟩, rfl⟩ := hq
    rw [hsh, hrast i j, hrast i' j', Prod.mk.injEq] at h
    obtain ⟨h1, h2⟩ := h
    have ei : i = i' := by omega
    have ej : j = j' := by omega
    rw [ei, ej]
  exact ⟨⟨hbound, hinj⟩, mask_total_zero_of_injective 1 1 witMat hbound hinj⟩

/-- C1 (amended): for in-range regions with `clip=False`:
`integrate=True` returns a `(S.n, K)` array of per-region sums — one row per
image, one column per point — not a flat `(K,)` array; `integrate=False`
returns the `(K, h, w)` array of cropped sub-images exactly when the stack
has a single image (a 2D input enters as `S.n = 1`), and faults in the final
reshape for stacks of two or more images. -/
theorem take_shapes_amended (S : Stack) (vs : List (Int × Int)) (sw sh : Nat)
    (centered nanable : Bool)
    (hK : 0 < vs.length) (hw : 0 < sw) (hh : 0 < sh)
    (H : ∀ k < vs.length, ∀ i < sw * sh,
      0 ≤ regionIx sw centered (vs.getD k (0, 0)).1 i ∧
      regionIx sw centered (vs.getD k (0, 0)).1 i < (S.w : Int) ∧
      0 ≤ regionIy sw sh centered (vs.getD k (0, 0)).2 i ∧
      regionIy sw sh centered (vs.getD k (0, 0)).2 i < (S.h : Int)) :
    (∃ d, take S vs sw sh centered true false nanable =
        .ok (.integrated S.n vs.length d) ∧
      ∀ n : Nat, ∀ k < vs.length, d n k = some (∑ i in Finset.range (sw * sh),
        S.pix n (regionIy sw sh centered (vs.getD k (0, 0)).2 i).toNat
          (regionIx sw centered (vs.getD k (0, 0)).1 i).toNat)) ∧
    (S.n = 1 → ∃ d, take S vs sw sh centered false false nanable =
        .ok (.cropped vs.length sh sw d) ∧
      ∀ k < vs.length, ∀ r < sh, ∀ c < sw,
        d k r c = some (S.pix 0
          (regionIy sw sh centered (vs.getD k (0, 0)).2 (r * sw + c)).toNat
          (regionIx sw centered (vs.getD k (0, 0)).1 (r * sw + c)).toNat)) ∧
    (2 ≤ S.n → take S vs sw sh centered false false nanable =
        .error "cannot reshape") := by
  have hOOB : takeOOB S vs sw sh centered = false :=
    takeOOB_eq_false_of_inRange S vs sw sh centered H
  have hstep : ∀ integ : Bool, take S vs sw sh centered integ false nanable =
      takeFinish S vs.length sw sh integ (fun n k i =>
        some (S.pix n ((npWrapIndex S.h (regionIy sw sh centered (vs.getD k (0, 0)).2 i)).getD 0)
          ((npWrapIndex S.w (regionIx sw centered (vs.getD k (0, 0)).1 i)).getD 0))) := by
    intro integ
    rw [take]
    simp [hOOB]
  have hres : ∀ k < vs.length, ∀ i < sw * sh, ∀ n : Nat,
      some (S.pix n ((npWrapIndex S.h (regionIy sw sh centered (vs.getD k (0, 0)).2 i)).getD 0)
        ((npWrapIndex S.w (regionIx sw centered (vs.getD k (0, 0)).1 i)).getD 0)) =
      some (S.pix n (regionIy sw sh centered (vs.getD k (0, 0)).2 i).toNat
        (regionIx sw centered (vs.getD k (0, 0)).1 i).toNat) := by
    intro k hk i hi n
    obtain ⟨a, b, c, d⟩ := H k hk i hi
    rw [npWrapIndex_inRange _ _ a b, npWrapIndex_inRange _ _ c d]
    rfl
  refine ⟨?_, ?_, ?_⟩
  · rw [hstep true, takeFinish]
    refine ⟨_, rfl, ?_⟩
    intro n k hk
    exact optSum_eq_sum _ _ (sw * sh) fun i hi => hres k hk i hi n
  · intro h1
    rw [hstep false, takeFinish]
    have hcond : S.n * vs.length * (sw * sh) = vs.length * (sh * sw) := by
      rw [h1]
      ring
    simp only [Bool.false_eq_true, if_false, if_pos hcond]
    refine ⟨_, rfl, ?_⟩
    intro k hk r hr c hc
    have hm : r * sw + c < sw * sh := by
      calc r * sw + c < r * sw + sw := by omega
        _ = (r + 1) * sw := by ring
        _ ≤ sh * sw := Nat.mul_le_mul_right sw hr
        _ = sw * sh := Nat.mul_comm sh sw
    have hlt : k * (sh * sw) + r * sw + c < vs.length * (sw * sh) := by
      have e : k * (sh * sw) + r * sw + c = (r * sw + c) + (sw * sh) * k := by
        rw [Nat.mul_comm sh sw]
        ring
      rw [e]
      calc (r * sw + c) + (sw * sh) * k < (sw * sh) + (sw * sh) * k := by omega
        _ = (sw * sh) * (k + 1) := by ring
        _ ≤ (sw * sh) * vs.length := Nat.mul_le_mul_left (sw * sh) hk
        _ = vs.length * (sw * sh) := Nat.mul_comm _ _
    have hdiv0 : (k * (sh * sw) + r * sw + c) / (vs.length * (sw * sh)) = 0 :=
      Nat.div_eq_of_lt hlt
    have hmod0 : (k * (sh * sw) + r * sw + c) % (vs.length * (sw * sh)) =
        k * (sh * sw) + r * sw + c :=
      Nat.mod_eq_of_lt hlt
    have hpos : 0 < sw * sh := Nat.mul_pos hw hh
    have e2 : k * (sh * sw) + r * sw + c = (r * sw + c) + (sw * sh) * k := by
      rw [Nat.mul_comm sh sw]
      ring
    have hdivk : (k * (sh * sw) + r * sw + c) / (sw * sh) = k := by
      rw [e2, Nat.add_mul_div_left _ _ hpos, Nat.div_eq_of_lt hm, Nat.zero_add]
    have hmodm : (k * (sh * sw) + r * sw + c) % (sw * sh) = r * sw + c := by
      rw [e2, Nat.add_mul_mod_self_left, Nat.mod_eq_of_lt hm]
    simp only [hdiv0, hmod0, hdivk, hmodm]
    exact hres k hk (r * sw + c) hm 0
  · intro h2
    rw [hstep false, takeFinish]
    have hcond : ¬(S.n * vs.length * (sw * sh) = vs.length * (sh * sw)) := by
      intro heq
      have hKW : 0 < vs.length * (sw * sh) := Nat.mul_pos hK (Nat.mul_pos hw hh)
      rw [Nat.mul_assoc, Nat.mul_comm sh sw] at heq
      have h1 : S.n * (vs.length * (sw * sh)) = 1 * (vs.length * (sw * sh)) := by
        rw [heq, Nat.one_mul]
      have := Nat.eq_of_mul_eq_mul_right hKW h1
      omega
    simp only [Bool.false_eq_true, if_false, if_neg hcond]

/-- Witness for C1 (amended): a centered in-range 3×3 region at `(2, 2)` of
the 5×5 single-image stack; `integrate=True` yields the `(1, 1)` sum array
and `integrate=False` yields the `(1, 3, 3)` crop. -/
theorem take_shapes_amended_witness :
    (∀ k < 1, ∀ i < 9,
      0 ≤ regionIx 3 true ([((2 : ℤ), (2 : ℤ))].getD k (0, 0)).1 i ∧
      regionIx 3 true ([((2 : ℤ), (2 : ℤ))].getD k (0, 0)).1 i < (5 : ℤ) ∧
      0 ≤ regionIy 3 3 true ([((2 : ℤ), (2 : ℤ))].getD k (0, 0)).2 i ∧
      regionIy 3 3 true ([((2 : ℤ), (2 : ℤ))].getD k (0, 0)).2 i < (5 : ℤ)) ∧
    (∃ d, take wrapStack [(2, 2)] 3 3 true true false true =
        .ok (.integrated 1 1 d) ∧
      ∀ n : Nat, ∀ k < 1, d n k = some (∑ i in Finset.range 9,
        wrapStack.pix n (regionIy 3 3 true ([((2 : ℤ), (2 : ℤ))].getD k (0, 0)).2 i).toNat
          (regionIx 3 true ([((2 : ℤ), (2 : ℤ))].getD k (0, 0)).1 i).toNat)) ∧
    (∃ d, take wrapStack [(2, 2)] 3 3 true false false true =
        .ok (.cropped 1 3 3 d) ∧
      ∀ k < 1, ∀ r < 3, ∀ c < 3, d k r c = some (wrapStack.pix 0
        (regionIy 3 3 true ([((2 : ℤ), (2 : ℤ))].getD k (0, 0)).2 (r * 3 + c)).toNat
        (regionIx 3 true ([((2 : ℤ), (2 : ℤ))].getD k (0, 0)).1 (r * 3 + c)).toNat)) := by
  have H : ∀ k < 1, ∀ i < 9,
      0 ≤ regionIx 3 true ([((2 : ℤ), (2 : ℤ))].getD k (0, 0)).1 i ∧
      regionIx 3 true ([((2 : ℤ), (2 : ℤ))].getD k (0, 0)).1 i < (5 : ℤ) ∧
      0 ≤ regionIy 3 3 true ([((2 : ℤ), (2 : ℤ))].getD k (0, 0)).2 i ∧
      regionIy 3 3 true ([((2 : ℤ), (2 : ℤ))].getD k (0, 0)).2 i < (5 : ℤ) := by
    decide
  exact ⟨H,
    (take_shapes_amended wrapStack [(2, 2)] 3 3 true true
      (by decide) (by decide) (by decide) H).1,
    (take_shapes_amended wrapStack [(2, 2)] 3 3 true true
      (by decide) (by decide) (by decide) H).2.1 rfl⟩
